import Mathlib

/-!
Verification development for the GHEJ-Index climate pipeline (`utils.py` and
its entry scripts).  The numerical layer of the source operates on gridded
floating-point arrays; here grid cells carry exact rationals, and the IEEE
NaN produced by missing data or undefined operations is modelled by `none`
in `Option ℚ`.  File I/O is abstracted away: each embedded operation takes
the already-loaded array contents as arguments and returns the value the
source would persist or pass on.
-/

namespace GHEJ

/-! ## Floating-point modelling helpers

`Option ℚ` models a float: `some q` is the finite value `q`, `none` models
NaN (and, for division, any non-finite result).  Comparisons against NaN are
false, arithmetic with NaN yields NaN, and pandas-style sums skip NaN. -/

/-- Float multiplication: NaN if either operand is NaN (`pop * t95`). -/
def fmul (a b : Option ℚ) : Option ℚ :=
  a.bind fun x => b.map fun y => x * y

/-- pandas `Series.sum()` with its default `skipna=True`: NaN entries are
dropped and the empty sum is `0`. -/
def fsum (l : List (Option ℚ)) : ℚ :=
  (l.filterMap id).sum

/-- Float division: a zero divisor yields a non-finite result (NaN for
`0/0`, ±∞ otherwise), both modelled as `none`. -/
def fdiv (a b : ℚ) : Option ℚ :=
  if b = 0 then none else some (a / b)

/-- Strict float comparison `x > y` as used by `tas_max_year > p95_hist`:
any comparison involving NaN is false. -/
def fgt (a b : Option ℚ) : Bool :=
  match a, b with
  | some x, some y => decide (y < x)
  | _, _ => false

/-! ## Percentile (numpy/xarray `quantile(0.95)` with linear interpolation) -/

/-- Ascending sort of a sample, as numpy sorts before taking order
statistics. -/
def sortQ (l : List ℚ) : List ℚ :=
  List.insertionSort (· ≤ ·) l

/-- The 95th percentile of a sample by linear interpolation between order
statistics: with `h = 0.95 * (n - 1)`, `i = ⌊h⌋`, the result is
`s[i] + (h - i) * (s[i+1] - s[i])` on the sorted sample `s`.  This is
`numpy.quantile(·, 0.95)` with the default (linear) interpolation, which
`xarray.DataArray.quantile(0.95, dim='valid_time')` applies per cell.
(The source only ever applies it to nonempty samples.) -/
def quantile95 (l : List ℚ) : ℚ :=
  let s := sortQ l
  let n := s.length
  let h : ℚ := 95 / 100 * ((n : ℚ) - 1)
  let i : ℕ := (⌊h⌋).toNat
  let lo := s.getD i 0
  let hi := s.getD (i + 1) lo
  lo + (h - (i : ℚ)) * (hi - lo)

/-! ## Historical percentile engine (`calculate_historical_percentiles`)

Longitude plays no role in any step of the source function (every
operation acts cellwise along time or slices along latitude), so a grid is
modelled as its latitude axis: a list of 720 cells, each cell holding the
daily series (a `List ℚ`) of that year.  `data y` is the content of the
file `era5_t2m_max_day_{y}.nc` restricted this way. -/

/-- `xr.concat(..., dim='valid_time')` on per-year arrays of a common
latitude band: cellwise concatenation of the daily series.  (On an empty
list of arrays the source's `xr.concat` raises; the `[]` case is never
reached for a nonempty year range.) -/
def concatTime : List (List (List ℚ)) → List (List ℚ)
  | [] => []
  | [b] => b
  | b :: b' :: bs => List.zipWith (· ++ ·) b (concatTime (b' :: bs))

/-- Python `range(0, 720, step)`: the start indices of the latitude bands. -/
def bandStarts (step : ℕ) : List ℕ :=
  (List.range ((720 + step - 1) / step)).map (· * step)

/-- `calculate_historical_percentiles` (src/utils.py:10-63), with file I/O
abstracted: for each latitude band `slice(lat, lat + step)` it loads every
year's band, concatenates them along `valid_time`, takes the cellwise 95th
percentile, and finally concatenates the per-band results along latitude.
The returned list is the field written to
`era5_t2m_max_{years[0]}-{years[-1]}_p95.nc`. -/
def calculate_historical_percentiles (data : ℕ → List (List ℚ))
    (years : List ℕ) (step : ℕ) : List ℚ :=
  ((bandStarts step).map fun lat =>
    (concatTime (years.map fun y => ((data y).drop lat).take step)).map
      quantile95).flatten

/-- The comparison point for the banding-refinement claim, written from the
spec's words: a single-pass, non-banded computation that takes, for every
cell of the 720-cell grid, the 95th percentile (linear interpolation
between order statistics) of that cell's full multi-year daily series. -/
def singlePassPercentiles (data : ℕ → List (List ℚ)) (years : List ℕ) :
    List ℚ :=
  (List.range 720).map fun i =>
    quantile95 ((years.map fun y => (data y).getD i []).flatten)

lemma concatTime_cons (b : List (List ℚ)) (bs : List (List (List ℚ)))
    (hbs : bs ≠ []) : concatTime (b :: bs) = List.zipWith (· ++ ·) b (concatTime bs) := by
  cases bs with
  | nil => exact absurd rfl hbs
  | cons b' bs' => rfl

lemma concatTime_slice (bs : List (List (List ℚ))) (m k : ℕ) :
    concatTime (bs.map fun b => (b.drop m).take k) =
      ((concatTime bs).drop m).take k := by
  induction bs with
  | nil => simp [concatTime]
  | cons b bs ih =>
    cases bs with
    | nil => simp [concatTime]
    | cons b' bs' =>
      have hne : (b' :: bs').map (fun b => (b.drop m).take k) ≠ [] := by simp
      rw [concatTime_cons b (b' :: bs') (by simp), List.drop_zipWith,
        List.take_zipWith, ← ih, List.map_cons, concatTime_cons _ _ hne]

lemma concatTime_length (bs : List (List (List ℚ))) (L : ℕ)
    (hne : bs ≠ []) (h : ∀ b ∈ bs, b.length = L) :
    (concatTime bs).length = L := by
  induction bs with
  | nil => exact absurd rfl hne
  | cons b bs ih =>
    cases bs with
    | nil => simpa using h b (by simp)
    | cons b' bs' =>
      rw [concatTime_cons _ _ (by simp), List.length_zipWith,
        h b (by simp), ih (by simp) (fun x hx => h x (List.mem_cons_of_mem _ hx))]
      exact min_self L

lemma concatTime_getD (bs : List (List (List ℚ))) (L i : ℕ)
    (hi : i < L) (h : ∀ b ∈ bs, b.length = L) :
    (concatTime bs).getD i [] = (bs.map fun b => b.getD i []).flatten := by
  induction bs with
  | nil => simp [concatTime]
  | cons b bs ih =>
    cases bs with
    | nil => simp [concatTime]
    | cons b' bs' =>
      rw [concatTime_cons _ _ (by simp), List.map_cons, List.flatten_cons,
        ← ih (fun x hx => h x (List.mem_cons_of_mem _ hx))]
      have hb : i < b.length := by rw [h b (by simp)]; exact hi
      have hc : i < (concatTime (b' :: bs')).length := by
        rw [concatTime_length _ L (by simp)
          (fun x hx => h x (List.mem_cons_of_mem _ hx))]
        exact hi
      have hz : i < (List.zipWith (· ++ ·) b (concatTime (b' :: bs'))).length := by
        rw [List.length_zipWith]; omega
      rw [List.getD_eq_getElem _ _ hz, List.getD_eq_getElem _ _ hb,
        List.getD_eq_getElem _ _ hc, List.getElem_zipWith]

/-- Tiling: the bands `drop (i * step) |>.take step` for `i < n` cover a
list entirely once `n * step` reaches its length. -/
lemma join_bands {α : Type} (l : List α) (step n : ℕ)
    (h : l.length ≤ n * step) :
    ((List.range n).map fun i => (l.drop (i * step)).take step).flatten = l := by
  induction n generalizing l with
  | zero =>
    have : l = [] := by
      cases l with
      | nil => rfl
      | cons a l => simp at h
    simp [this]
  | succ n ih =>
    rw [List.range_succ_eq_map]
    simp only [List.map_cons, List.map_map, List.flatten_cons, Nat.zero_mul,
      List.drop_zero]
    have hrw : ∀ i : ℕ, (l.drop (Nat.succ i * step)).take step =
        ((l.drop step).drop (i * step)).take step := by
      intro i
      rw [List.drop_drop, Nat.succ_mul, Nat.add_comm]
    have : ((List.range n).map ((fun i => (l.drop (i * step)).take step) ∘ Nat.succ))
        = (List.range n).map fun i => ((l.drop step).drop (i * step)).take step := by
      apply List.map_congr_left
      intro i _
      exact hrw i
    rw [Nat.add_mul, Nat.one_mul] at h
    rw [this, ih (l.drop step) (by rw [List.length_drop]; omega)]
    exact List.take_append_drop step l

lemma bands_cover (step : ℕ) (hstep : 0 < step) :
    720 ≤ (720 + step - 1) / step * step := by
  have hd := Nat.div_add_mod (720 + step - 1) step
  have hm : (720 + step - 1) % step < step := Nat.mod_lt _ hstep
  have hc : (720 + step - 1) / step * step =
      step * ((720 + step - 1) / step) := Nat.mul_comm _ _
  omega

/-- C1: for every daily-maximum archive on the fixed 720-latitude grid,
every (nonempty) reference year range and every positive latitude chunk
size, the banded computation of `calculate_historical_percentiles` equals,
cell for cell, the single-pass non-banded 95th-percentile computation over
each cell's full multi-year daily series; the chunk size has no observable
effect on the output. -/
theorem banding_no_observable_effect (data : ℕ → List (List ℚ))
    (years : List ℕ) (step : ℕ) (hstep : 0 < step) (hy : years ≠ [])
    (hlen : ∀ y ∈ years, (data y).length = 720) :
    calculate_historical_percentiles data years step =
      singlePassPercentiles data years := by
  have hmem : ∀ b ∈ years.map data, b.length = 720 := by
    intro b hb
    obtain ⟨y, hy', rfl⟩ := List.mem_map.mp hb
    exact hlen y hy'
  have hymap : years.map data ≠ [] := by simpa using hy
  have hfull : (concatTime (years.map data)).length = 720 :=
    concatTime_length _ 720 hymap hmem
  have hA : ∀ lat : ℕ,
      concatTime (years.map fun y => ((data y).drop lat).take step) =
        ((concatTime (years.map data)).drop lat).take step := by
    intro lat
    have hmm : (years.map fun y => ((data y).drop lat).take step) =
        (years.map data).map fun b => (b.drop lat).take step := by
      rw [List.map_map]
      rfl
    rw [hmm, concatTime_slice]
  have hq : (concatTime (years.map data)).map quantile95 =
      singlePassPercentiles data years := by
    apply List.ext_getElem
    · simp [singlePassPercentiles, hfull]
    · intro i h1 h2
      simp only [singlePassPercentiles, List.getElem_map, List.getElem_range]
      have hi : i < 720 := by
        simpa [hfull] using h1
      have hlt : i < (concatTime (years.map data)).length := by omega
      rw [← List.getD_eq_getElem _ ([] : List ℚ) hlt,
        concatTime_getD (years.map data) 720 i hi hmem]
      congr 1
      rw [List.map_map]
      rfl
  unfold calculate_historical_percentiles bandStarts
  rw [List.map_map]
  have hcong : (List.range ((720 + step - 1) / step)).map
        ((fun lat =>
          (concatTime (years.map fun y => ((data y).drop lat).take step)).map
            quantile95) ∘ (· * step)) =
      (List.range ((720 + step - 1) / step)).map
        (fun i =>
          (((concatTime (years.map data)).map quantile95).drop (i * step)).take
            step) := by
    apply List.map_congr_left
    intro i _
    show (concatTime (years.map fun y =>
        ((data y).drop (i * step)).take step)).map quantile95 = _
    rw [hA, List.map_take, List.map_drop]
  rw [hcong, join_bands _ step _
    (by rw [List.length_map, hfull]; exact bands_cover step hstep), hq]

/-- Witness for C1 at a concrete archive: a constant 720-cell grid with a
one-day series, one reference year and chunk size 300. -/
theorem banding_no_observable_effect_witness :
    (0 < 300 ∧ ([1995] : List ℕ) ≠ [] ∧
        ∀ y ∈ ([1995] : List ℕ),
          ((fun _ : ℕ => List.replicate 720 [(0 : ℚ)]) y).length = 720) ∧
      calculate_historical_percentiles
          (fun _ => List.replicate 720 [(0 : ℚ)]) [1995] 300 =
        singlePassPercentiles (fun _ => List.replicate 720 [(0 : ℚ)]) [1995] :=
  ⟨⟨by decide, by decide, by intro y _; simp only [List.length_replicate]⟩,
    banding_no_observable_effect _ _ _ (by decide) (by decide)
      (by intro y _; simp only [List.length_replicate])⟩

/-! ## Exceedance counter (`temperature_index`, src/utils.py:262) -/

/-- The per-cell content of
`excedance_count = (tas_max_year > p95_hist).sum(dim='valid_time')`:
the boolean field of strict comparisons (false on NaN, as in IEEE floats)
summed along the year's days, an integer. -/
def excedance_count (days : List (Option ℚ)) (thr : Option ℚ) : ℕ :=
  days.countP fun d => fgt d thr

lemma fgt_none (thr : Option ℚ) : fgt none thr = false := by
  cases thr <;> rfl

/-- C3: at each cell the exceedance count equals the number of days whose
daily maximum strictly exceeds the threshold; a day equal to the threshold
is not counted (prepending such a day leaves the count unchanged); and for
a year of at most 366 days the count lies in `[0, 366]` (it is a natural
number, hence an integer and nonnegative by type). -/
theorem excedance_count_strict (days : List (Option ℚ)) (thr : ℚ)
    (hdays : days.length ≤ 366) :
    excedance_count days (some thr) =
        (days.filter fun d =>
          match d with
          | some x => decide (thr < x)
          | none => false).length ∧
      excedance_count days (some thr) ≤ 366 ∧
      excedance_count (some thr :: days) (some thr) =
        excedance_count days (some thr) := by
  refine ⟨?_, ?_, ?_⟩
  · rw [excedance_count, List.countP_eq_length_filter]
    congr 1
    apply List.filter_congr
    intro d _
    cases d <;> rfl
  · exact le_trans (List.countP_le_length _) hdays
  · rw [excedance_count, excedance_count, List.countP_cons]
    simp [fgt]
/-- C10: a NaN day is counted as a non-exceedance day: inserting a NaN day
anywhere leaves the count unchanged, the count equals the count over the
non-NaN days alone, and a cell with no data at all (all days NaN, as
outside the model's domain) counts 0.  The count is a natural number, so
it is a well-defined nonnegative integer and never NaN. -/
theorem nan_day_is_non_exceedance (days₁ days₂ : List (Option ℚ))
    (thr : Option ℚ) :
    excedance_count (days₁ ++ none :: days₂) thr =
        excedance_count (days₁ ++ days₂) thr ∧
      excedance_count (days₁ ++ days₂) thr =
        excedance_count (((days₁ ++ days₂).filterMap id).map some) thr ∧
      ∀ n : ℕ, excedance_count (List.replicate n none) thr = 0 := by
  refine ⟨?_, ?_, ?_⟩
  · rw [excedance_count, excedance_count, List.countP_append,
      List.countP_append, List.countP_cons, fgt_none]
    simp
  · generalize days₁ ++ days₂ = l
    induction l with
    | nil => rfl
    | cons d l ih =>
      cases d with
      | none =>
        rw [excedance_count, List.countP_cons, fgt_none]
        simpa [excedance_count] using ih
      | some x =>
        rw [excedance_count, List.countP_cons]
        simp only [List.filterMap_cons, id]
        rw [List.map_cons, excedance_count, List.countP_cons]
        simpa [excedance_count] using ih
  · intro n
    induction n with
    | zero => rfl
    | succ n ih =>
      rw [List.replicate_succ, excedance_count, List.countP_cons, fgt_none]
      simpa [excedance_count] using ih

/-! ## Region aggregator (`get_region_values`, src/utils.py:167-209)

The three co-registered fields arrive flattened into parallel arrays and
are zipped row-wise into a DataFrame; a row is
`(IMAGE_region, (T95, population))`. -/

/-- The rows surviving `regions_df[~regions_df['IMAGE_region'].isna()]`:
cells with a NaN region id are dropped and the id is unwrapped into the
group key. -/
def definedRows (region t95 pop : List (Option ℚ)) :
    List (ℚ × Option ℚ × Option ℚ) :=
  (region.zip (t95.zip pop)).filterMap fun r =>
    r.1.map fun a => (a, r.2)

/-- The pandas `groupby('IMAGE_region')` group keys: the distinct region
ids in ascending order (`groupby` sorts keys by default). -/
def groupKeys (rows : List (ℚ × Option ℚ × Option ℚ)) : List ℚ :=
  List.insertionSort (· ≤ ·) (rows.map Prod.fst).dedup

/-- The aggregation
`lambda x: (x['T95'] * x['population']).sum() / x['population'].sum()`
applied to one group. -/
def weightedMean (rows : List (ℚ × Option ℚ × Option ℚ)) (g : ℚ) :
    Option ℚ :=
  let grp := rows.filter fun r => decide (r.1 = g)
  fdiv (fsum (grp.map fun r => fmul r.2.1 r.2.2))
    (fsum (grp.map fun r => r.2.2))

/-- `get_region_values` restricted to its numeric content: the association
of each region id with the population-weighted mean of the exceedance
counts over that region's cells.  (The model-name/column labelling of the
same function is embedded separately as `model_name`.) -/
def get_region_values (region t95 pop : List (Option ℚ)) :
    List (ℚ × Option ℚ) :=
  let rows := definedRows region t95 pop
  (groupKeys rows).map fun g => (g, weightedMean rows g)

lemma definedRows_filter {β : Type} (rows : List (Option ℚ × β)) (g : ℚ) :
    (rows.filterMap fun r => r.1.map fun a => (a, r.2)).filter
        (fun r => decide (r.1 = g)) =
      (rows.filter fun r => decide (r.1 = some g)).map fun r => (g, r.2) := by
  induction rows with
  | nil => rfl
  | cons r rows ih =>
    obtain ⟨o, b⟩ := r
    cases o with
    | none => simpa using ih
    | some a =>
      by_cases hag : a = g
      · subst hag
        simpa using ih
      · simp only [List.filterMap_cons, Option.map_some']
        rw [List.filter_cons, List.filter_cons]
        simp only [decide_eq_true_eq, hag, Option.some.injEq]
        simpa [hag] using ih

lemma keys_of_definedRows {β : Type} (rows : List (Option ℚ × β)) :
    (rows.filterMap fun r => r.1.map fun a => (a, r.2)).map Prod.fst =
      rows.filterMap fun r => r.1 := by
  induction rows with
  | nil => rfl
  | cons r rows ih =>
    obtain ⟨o, b⟩ := r
    cases o with
    | none => simpa using ih
    | some a => simpa using ih

/-- C2: `get_region_values` drops exactly the NaN-region cells, groups the
remaining cells by region id, and maps each region id `g` present among the
cells to `sum(exceedance_i * population_i) / sum(population_i)` over the
rows of region `g` (a NaN quotient when the denominator vanishes); and the
two-cell example with populations 10 and 30 and counts 5 and 15 yields
exactly 12.5. -/
theorem region_weighted_mean (region t95 pop : List (Option ℚ)) :
    (∀ g v, (g, v) ∈ get_region_values region t95 pop ↔
      ((∃ tp, (some g, tp) ∈ region.zip (t95.zip pop)) ∧
        v = fdiv
          (fsum (((region.zip (t95.zip pop)).filter
            (fun r => decide (r.1 = some g))).map fun r => fmul r.2.1 r.2.2))
          (fsum (((region.zip (t95.zip pop)).filter
            (fun r => decide (r.1 = some g))).map fun r => r.2.2)))) ∧
      get_region_values [some 1, some 1] [some 5, some 15]
        [some 10, some 30] = [(1, some (25 / 2 : ℚ))] := by
  constructor
  · intro g v
    have hwm : weightedMean (definedRows region t95 pop) g =
        fdiv
          (fsum (((region.zip (t95.zip pop)).filter
            (fun r => decide (r.1 = some g))).map fun r => fmul r.2.1 r.2.2))
          (fsum (((region.zip (t95.zip pop)).filter
            (fun r => decide (r.1 = some g))).map fun r => r.2.2)) := by
      rw [weightedMean, definedRows, definedRows_filter, List.map_map,
        List.map_map]
      rfl
    have hkey : g ∈ groupKeys (definedRows region t95 pop) ↔
        ∃ tp, (some g, tp) ∈ region.zip (t95.zip pop) := by
      rw [groupKeys, List.mem_insertionSort, List.mem_dedup, definedRows,
        keys_of_definedRows, List.mem_filterMap]
      constructor
      · rintro ⟨r, hr, hr1⟩
        exact ⟨r.2, by rwa [← hr1, Prod.mk.eta]⟩
      · rintro ⟨tp, htp⟩
        exact ⟨(some g, tp), htp, rfl⟩
    constructor
    · intro hmem
      rw [get_region_values, List.mem_map] at hmem
      obtain ⟨k, hk, hkv⟩ := hmem
      obtain ⟨rfl, rfl⟩ : k = g ∧ weightedMean (definedRows region t95 pop) k = v := by
        constructor
        · exact congrArg Prod.fst hkv
        · exact congrArg Prod.snd hkv
      exact ⟨hkey.mp hk, hwm⟩
    · rintro ⟨hex, rfl⟩
      rw [get_region_values, List.mem_map]
      exact ⟨g, hkey.mpr hex, by rw [hwm]⟩
  · simp only [get_region_values, definedRows, groupKeys, weightedMean, fsum,
      fmul, fdiv, List.zip_cons_cons, List.zip_nil_right, List.filterMap_cons,
      List.filterMap_nil, Option.map_some', List.map_cons, List.map_nil,
      List.dedup_cons_of_not_mem, List.not_mem_nil, List.dedup_nil,
      List.insertionSort, List.orderedInsert, List.filter_cons,
      List.filter_nil, List.sum_cons, List.sum_nil, Option.bind_some]
    norm_num [List.filterMap_cons, List.filterMap_nil, id_eq, List.sum_cons,
      List.sum_nil]

/-- C4 (failing input for the zero-population failure mode): at a region
whose only cell has population 0, the source computes `0.0 / 0.0`, i.e.
NaN (`none` here), and returns it silently; no explicit "no data" signal
exists anywhere in `get_region_values`. -/
theorem zero_population_region_yields_nan :
    get_region_values [some 1] [some 5] [some 0] = [(1, none)] := by
  simp only [get_region_values, definedRows, groupKeys, weightedMean, fsum,
    fmul, fdiv, List.zip_cons_cons, List.zip_nil_right, List.filterMap_cons,
    List.filterMap_nil, Option.map_some', List.map_cons, List.map_nil,
    List.dedup_cons_of_not_mem, List.not_mem_nil, List.dedup_nil,
    List.insertionSort, List.orderedInsert, List.filter_cons,
    List.filter_nil, List.sum_cons, List.sum_nil, Option.bind_some]
  norm_num [List.filterMap_cons, List.filterMap_nil, id_eq, List.sum_cons,
    List.sum_nil]

/-- Witness for C3 at a concrete three-day series and threshold 1. -/
theorem excedance_count_strict_witness :
    ([some 2, some 1, none] : List (Option ℚ)).length ≤ 366 ∧
      (excedance_count [some 2, some 1, none] (some 1) =
          (([some 2, some 1, none] : List (Option ℚ)).filter fun d =>
            match d with
            | some x => decide ((1 : ℚ) < x)
            | none => false).length ∧
        excedance_count [some 2, some 1, none] (some 1) ≤ 366 ∧
        excedance_count (some 1 :: [some 2, some 1, none]) (some 1) =
          excedance_count [some 2, some 1, none] (some 1)) :=
  ⟨by decide, excedance_count_strict [some 2, some 1, none] 1 (by decide)⟩

/-! ## File-name and column-name metadata (regex embeddings)

`get_region_values` labels its column from the model file name via
`re.search` with pattern `day_(.*)_r` capture group 1, and
`temperature_index_all_models` parses column names back with the pattern:
four digits (year), underscore, lazy nonempty model, underscore, greedy
nonempty scenario.  Both scanners are embedded below over `List Char`
with Python's leftmost-match, greedy and lazy semantics. -/

/-- The suffix following the first occurrence of `day_` in `l` (where the
capture group of `day_(.*)_r` starts), or `none` if `day_` never occurs. -/
def afterDay : List Char → Option (List Char)
  | [] => none
  | c :: cs =>
    if c = 'd' ∧ cs.take 3 = ['a', 'y', '_'] then some (cs.drop 3)
    else afterDay cs

/-- The prefix of `l` strictly before the last occurrence of the
two-character pattern `_r` (the greedy `.*` backtracks to the last `_r`),
or `none` if `_r` never occurs. -/
def beforeLastUR : List Char → Option (List Char)
  | [] => none
  | c :: cs =>
    match beforeLastUR cs with
    | some p => some (c :: p)
    | none => if c = '_' ∧ cs.take 1 = ['r'] then some [] else none

/-- `re.search(r'day_(.*)_r', model_file).group(1)` (src/utils.py:184).
`none` models the `AttributeError` the source raises on a file name in
which the pattern does not occur. -/
def model_name (model_file : List Char) : Option (List Char) :=
  (afterDay model_file).bind beforeLastUR

/-- The column label built at src/utils.py:206: the year's decimal digit
string, an underscore, then the extracted model name. -/
def columnLabel (yd mn : List Char) : List Char :=
  yd ++ '_' :: mn

/-- The lazy group followed by `_` and a nonempty greedy remainder: the
shortest split `l = p ++ '_' :: q` with `q` nonempty, scanning `p` from
the left. -/
def lazySplit : List Char → Option (List Char × List Char)
  | [] => none
  | c :: cs =>
    if c = '_' ∧ cs ≠ [] then some ([], cs)
    else (lazySplit cs).map fun pq => (c :: pq.1, pq.2)

/-- One anchored attempt of the summary pattern (four digits, underscore,
lazy nonempty model, underscore, greedy nonempty scenario) at the start of
`l`. -/
def matchYMS (l : List Char) : Option (List Char × List Char × List Char) :=
  match l with
  | a :: b :: c :: d :: e :: x :: xs =>
    if a.isDigit ∧ b.isDigit ∧ c.isDigit ∧ d.isDigit ∧ e = '_' then
      (lazySplit xs).map fun pq => ([a, b, c, d], x :: pq.1, pq.2)
    else none
  | _ => none

/-- `re.search` of the summary pattern
(`models_data.columns.str.extract`, src/utils.py:292): the leftmost start
position at which `matchYMS` succeeds. -/
def parseColumn : List Char → Option (List Char × List Char × List Char)
  | [] => none
  | c :: cs =>
    match matchYMS (c :: cs) with
    | some r => some r
    | none => parseColumn cs

lemma beforeLastUR_cons (c : Char) (cs : List Char) :
    beforeLastUR (c :: cs) =
      match beforeLastUR cs with
      | some p => some (c :: p)
      | none => if c = '_' ∧ cs.take 1 = ['r'] then some [] else none := rfl

lemma beforeLastUR_no_underscore (l : List Char) (h : '_' ∉ l) :
    beforeLastUR l = none := by
  induction l with
  | nil => rfl
  | cons c cs ih =>
    rw [beforeLastUR_cons, ih (fun hc => h (List.mem_cons_of_mem _ hc))]
    exact if_neg (by rintro ⟨rfl, -⟩; exact h (List.mem_cons_self _ _))

lemma beforeLastUR_append_none (xs ys : List Char) (hxs : '_' ∉ xs)
    (hys : beforeLastUR ys = none) : beforeLastUR (xs ++ ys) = none := by
  induction xs with
  | nil => simpa using hys
  | cons c cs ih =>
    rw [List.cons_append, beforeLastUR_cons,
      ih (fun hc => hxs (List.mem_cons_of_mem _ hc))]
    exact if_neg (by rintro ⟨rfl, -⟩; exact hxs (List.mem_cons_self _ _))

lemma beforeLastUR_last (xs ys : List Char) (hys : beforeLastUR ys = none) :
    beforeLastUR (xs ++ '_' :: 'r' :: ys) = some xs := by
  induction xs with
  | nil =>
    rw [List.nil_append, beforeLastUR_cons, beforeLastUR_cons, hys]
    simp
  | cons c cs ih =>
    rw [List.cons_append, beforeLastUR_cons, ih]

lemma lazySplit_append (p q : List Char) (hp : '_' ∉ p) (hq : q ≠ []) :
    lazySplit (p ++ '_' :: q) = some (p, q) := by
  induction p with
  | nil =>
    rw [List.nil_append, lazySplit, if_pos ⟨rfl, hq⟩]
  | cons c cs ih =>
    rw [List.cons_append, lazySplit,
      if_neg (show ¬(c = '_' ∧ cs ++ '_' :: q ≠ []) by
        rintro ⟨rfl, -⟩; exact hp (List.mem_cons_self _ _)),
      ih (fun hc => hp (List.mem_cons_of_mem _ hc))]
    rfl

lemma digit_ne_underscore {c : Char} (h : c.isDigit = true) : c ≠ '_' := by
  rintro rfl
  exact absurd h (by decide)

lemma digit_ne_r {c : Char} (h : c.isDigit = true) : c ≠ 'r' := by
  rintro rfl
  exact absurd h (by decide)

lemma afterDay_cons (c : Char) (cs : List Char) :
    afterDay (c :: cs) =
      if c = 'd' ∧ cs.take 3 = ['a', 'y', '_'] then some (cs.drop 3)
      else afterDay cs := rfl

lemma afterDay_skip (c : Char) (cs : List Char) (hc : c ≠ 'd') :
    afterDay (c :: cs) = afterDay cs := by
  rw [afterDay_cons, if_neg (by rintro ⟨rfl, -⟩; exact hc rfl)]

lemma afterDay_tasmax (rest : List Char) :
    afterDay ("tasmax_day_".toList ++ rest) = some rest := by
  show afterDay ('t' :: 'a' :: 's' :: 'm' :: 'a' :: 'x' :: '_' :: 'd' :: 'a'
    :: 'y' :: '_' :: rest) = some rest
  rw [afterDay_skip _ _ (by decide), afterDay_skip _ _ (by decide),
    afterDay_skip _ _ (by decide), afterDay_skip _ _ (by decide),
    afterDay_skip _ _ (by decide), afterDay_skip _ _ (by decide),
    afterDay_skip _ _ (by decide), afterDay_cons, if_pos ⟨rfl, rfl⟩]
  rfl

lemma matchYMS_eq (a b c d e x : Char) (xs : List Char) :
    matchYMS (a :: b :: c :: d :: e :: x :: xs) =
      if a.isDigit ∧ b.isDigit ∧ c.isDigit ∧ d.isDigit ∧ e = '_' then
        (lazySplit xs).map fun pq => ([a, b, c, d], x :: pq.1, pq.2)
      else none := rfl

lemma parseColumn_cons (c : Char) (cs : List Char) :
    parseColumn (c :: cs) =
      match matchYMS (c :: cs) with
      | some r => some r
      | none => parseColumn cs := rfl

lemma exists_four_of_length {l : List Char} (h : l.length = 4) :
    ∃ a b c d, l = [a, b, c, d] := by
  cases l with
  | nil => simp at h
  | cons a l =>
    cases l with
    | nil => simp at h
    | cons b l =>
      cases l with
      | nil => simp at h
      | cons c l =>
        cases l with
        | nil => simp at h
        | cons d l =>
          cases l with
          | nil => exact ⟨a, b, c, d, rfl⟩
          | cons e l => simp at h

/-- C5 (counterexample to the claim as stated): this file name matches the
documented convention with model `MIROC6`, scenario `ssp126`, variant
`r1i1p1f1` and grid `rg1`, but the greedy capture of `day_(.*)_r`
backtracks to the `_r` of the grid token: the round trip reports scenario
`ssp126_r1i1p1f1` instead of `ssp126`. -/
theorem column_roundtrip_counterexample :
    (model_name
        "tasmax_day_MIROC6_ssp126_r1i1p1f1_rg1_20150101-21001231.nc".toList).bind
        (fun mn => parseColumn (columnLabel "2025".toList mn)) =
      some ("2025".toList, "MIROC6".toList, "ssp126_r1i1p1f1".toList) ∧
      "ssp126_r1i1p1f1".toList ≠ "ssp126".toList := by
  constructor
  · decide
  · decide

/-- C5 (amended): for every file name of the documented convention in
which model, scenario, variant and grid are nonempty underscore-free
tokens, the variant begins with `r` (CMIP6 variant labels `r..i..p..f..`),
the grid does not begin with `r`, and the date fields are digit strings,
the column label `year_model-name` built by `get_region_values` is parsed
back by the summary pattern into exactly the original year digit string,
model and scenario. -/
theorem column_roundtrip (yd m sc v g d1 d2 : List Char)
    (hydl : yd.length = 4) (hydd : ∀ c ∈ yd, c.isDigit)
    (hm : m ≠ []) (hmu : '_' ∉ m)
    (hsc : sc ≠ []) (hscu : '_' ∉ sc)
    (hvu : '_' ∉ v)
    (hg : g ≠ []) (hgu : '_' ∉ g) (hgr : g.head? ≠ some 'r')
    (hd1 : d1 ≠ []) (hd1d : ∀ c ∈ d1, c.isDigit)
    (hd2d : ∀ c ∈ d2, c.isDigit) :
    (model_name ("tasmax_day_".toList ++
        (m ++ '_' :: (sc ++ '_' :: 'r' ::
          (v ++ '_' :: (g ++ '_' :: (d1 ++ '-' :: (d2 ++ ".nc".toList)))))))).bind
      (fun mn => parseColumn (columnLabel yd mn)) = some (yd, m, sc) := by
  have hnc : beforeLastUR ".nc".toList = none := by decide
  have h1 : beforeLastUR (d2 ++ ".nc".toList) = none :=
    beforeLastUR_append_none _ _
      (fun hc => digit_ne_underscore (hd2d '_' hc) rfl) hnc
  have h2 : beforeLastUR ('-' :: (d2 ++ ".nc".toList)) = none := by
    rw [beforeLastUR_cons, h1]
    exact if_neg (by rintro ⟨h, -⟩; exact absurd h (by decide))
  have h3 : beforeLastUR (d1 ++ '-' :: (d2 ++ ".nc".toList)) = none :=
    beforeLastUR_append_none _ _
      (fun hc => digit_ne_underscore (hd1d '_' hc) rfl) h2
  have h4 : beforeLastUR ('_' :: (d1 ++ '-' :: (d2 ++ ".nc".toList))) =
      none := by
    rw [beforeLastUR_cons, h3]
    cases d1 with
    | nil => exact absurd rfl hd1
    | cons c1 d1' =>
      refine if_neg ?_
      rintro ⟨-, htk⟩
      simp only [List.cons_append, List.take_succ_cons, List.take_zero,
        List.cons.injEq, and_true] at htk
      exact digit_ne_r (hd1d c1 (List.mem_cons_self _ _)) htk
  have h5 : beforeLastUR (g ++ '_' :: (d1 ++ '-' :: (d2 ++ ".nc".toList))) =
      none := beforeLastUR_append_none _ _ hgu h4
  have h6 : beforeLastUR
      ('_' :: (g ++ '_' :: (d1 ++ '-' :: (d2 ++ ".nc".toList)))) = none := by
    rw [beforeLastUR_cons, h5]
    cases g with
    | nil => exact absurd rfl hg
    | cons cg g' =>
      refine if_neg ?_
      rintro ⟨-, htk⟩
      simp only [List.cons_append, List.take_succ_cons, List.take_zero,
        List.cons.injEq, and_true] at htk
      exact hgr (by rw [List.head?_cons, htk])
  have hT : beforeLastUR
      (v ++ '_' :: (g ++ '_' :: (d1 ++ '-' :: (d2 ++ ".nc".toList)))) =
      none := beforeLastUR_append_none _ _ hvu h6
  have hassoc : m ++ '_' :: (sc ++ '_' :: 'r' ::
        (v ++ '_' :: (g ++ '_' :: (d1 ++ '-' :: (d2 ++ ".nc".toList))))) =
      (m ++ '_' :: sc) ++ '_' :: 'r' ::
        (v ++ '_' :: (g ++ '_' :: (d1 ++ '-' :: (d2 ++ ".nc".toList)))) := by
    simp [List.append_assoc]
  have hmn : model_name ("tasmax_day_".toList ++
        (m ++ '_' :: (sc ++ '_' :: 'r' ::
          (v ++ '_' :: (g ++ '_' :: (d1 ++ '-' :: (d2 ++ ".nc".toList))))))) =
      some (m ++ '_' :: sc) := by
    show (afterDay ("tasmax_day_".toList ++
        (m ++ '_' :: (sc ++ '_' :: 'r' ::
          (v ++ '_' :: (g ++ '_' :: (d1 ++ '-' :: (d2 ++ ".nc".toList)))))))).bind
        beforeLastUR = some (m ++ '_' :: sc)
    rw [afterDay_tasmax]
    show beforeLastUR (m ++ '_' :: (sc ++ '_' :: 'r' ::
        (v ++ '_' :: (g ++ '_' :: (d1 ++ '-' :: (d2 ++ ".nc".toList)))))) =
      some (m ++ '_' :: sc)
    rw [hassoc, beforeLastUR_last _ _ hT]
  rw [hmn]
  obtain ⟨a, b, c, d, rfl⟩ := exists_four_of_length hydl
  cases m with
  | nil => exact absurd rfl hm
  | cons x m' =>
    show parseColumn (a :: b :: c :: d :: '_' :: x :: (m' ++ '_' :: sc)) =
      some ([a, b, c, d], x :: m', sc)
    rw [parseColumn_cons, matchYMS_eq,
      if_pos ⟨hydd a (by simp), hydd b (by simp), hydd c (by simp),
        hydd d (by simp), rfl⟩,
      lazySplit_append m' sc (fun hc => hmu (List.mem_cons_of_mem _ hc)) hsc]
    rfl

/-- Witness for the amended C5 at the file
`tasmax_day_MIROC6_ssp126_r1i1p1f1_gn_20150101-21001231.nc` and year
2025. -/
theorem column_roundtrip_witness :
    ("2025".toList.length = 4 ∧ (∀ c ∈ "2025".toList, c.isDigit) ∧
        "MIROC6".toList ≠ [] ∧ '_' ∉ "MIROC6".toList ∧
        "ssp126".toList ≠ [] ∧ '_' ∉ "ssp126".toList ∧
        '_' ∉ "1i1p1f1".toList ∧
        "gn".toList ≠ [] ∧ '_' ∉ "gn".toList ∧
        "gn".toList.head? ≠ some 'r' ∧
        "20150101".toList ≠ [] ∧ (∀ c ∈ "20150101".toList, c.isDigit) ∧
        (∀ c ∈ "21001231".toList, c.isDigit)) ∧
      (model_name ("tasmax_day_".toList ++
          ("MIROC6".toList ++ '_' :: ("ssp126".toList ++ '_' :: 'r' ::
            ("1i1p1f1".toList ++ '_' :: ("gn".toList ++ '_' ::
              ("20150101".toList ++ '-' ::
                ("21001231".toList ++ ".nc".toList)))))))).bind
        (fun mn => parseColumn (columnLabel "2025".toList mn)) =
        some ("2025".toList, "MIROC6".toList, "ssp126".toList) :=
  ⟨⟨by decide, by decide, by decide, by decide, by decide, by decide,
      by decide, by decide, by decide, by decide, by decide, by decide,
      by decide⟩,
    column_roundtrip "2025".toList "MIROC6".toList "ssp126".toList
      "1i1p1f1".toList "gn".toList "20150101".toList "21001231".toList
      (by decide) (by decide) (by decide) (by decide) (by decide)
      (by decide) (by decide) (by decide) (by decide) (by decide)
      (by decide) (by decide) (by decide)⟩

/-! ## Grid alignment (`align_data`, src/utils.py:71-95)

The longitude-shift branch (line 92) reassigns
`longitude = (longitude + 180) % 360 - 180` and then sorts by longitude.
A dataset is modelled by its (longitude, value) rows; the ascending
stable sort models `sortby("longitude")`. -/

/-- Python float `%` with positive divisor: `a - b * floor (a / b)`, the
representative in `[0, b)`. -/
def pymod (a b : ℚ) : ℚ :=
  a - b * (⌊a / b⌋ : ℤ)

/-- The longitude remap `(lon + 180) % 360 - 180` of src/utils.py:92. -/
def wrapLon (x : ℚ) : ℚ :=
  pymod (x + 180) 360 - 180

/-- Row order used by `sortby("longitude")`: compare the coordinate. -/
def lonLE (p q : ℚ × ℚ) : Prop :=
  p.1 ≤ q.1

instance : DecidableRel lonLE :=
  fun p q => inferInstanceAs (Decidable (p.1 ≤ q.1))

instance : IsTotal (ℚ × ℚ) lonLE :=
  ⟨fun p q => le_total p.1 q.1⟩

instance : IsTrans (ℚ × ℚ) lonLE :=
  ⟨fun _ _ _ h h' => le_trans h h'⟩

/-- The `longitude_shift` branch of `align_data`: wrap every longitude
into `[-180, 180)` (values carried unchanged) and re-sort ascending by
longitude. -/
def longitude_shift (d : List (ℚ × ℚ)) : List (ℚ × ℚ) :=
  List.insertionSort lonLE (d.map fun p => (wrapLon p.1, p.2))

lemma pymod_bounds (a : ℚ) : 0 ≤ pymod a 360 ∧ pymod a 360 < 360 := by
  have h1 : ((⌊a / 360⌋ : ℤ) : ℚ) ≤ a / 360 := Int.floor_le _
  have h2 : a / 360 < (⌊a / 360⌋ : ℤ) + 1 := Int.lt_floor_add_one _
  have h3 : (360 : ℚ) * (a / 360) = a := by
    rw [mul_div_cancel₀ _ (by norm_num : (360 : ℚ) ≠ 0)]
  have h4 : (360 : ℚ) * ((⌊a / 360⌋ : ℤ) : ℚ) ≤ 360 * (a / 360) :=
    mul_le_mul_of_nonneg_left h1 (by norm_num)
  have h5 : (360 : ℚ) * (a / 360) < 360 * (((⌊a / 360⌋ : ℤ) : ℚ) + 1) :=
    (mul_lt_mul_left (by norm_num)).mpr h2
  constructor
  · rw [pymod]; linarith
  · rw [pymod]; linarith

lemma wrapLon_bounds (x : ℚ) : -180 ≤ wrapLon x ∧ wrapLon x < 180 := by
  obtain ⟨h1, h2⟩ := pymod_bounds (x + 180)
  constructor
  · rw [wrapLon]; linarith
  · rw [wrapLon]; linarith

lemma wrapLon_fixed (x : ℚ) (h1 : -180 ≤ x) (h2 : x < 180) :
    wrapLon x = x := by
  have hfl : ⌊(x + 180) / 360⌋ = 0 := by
    rw [Int.floor_eq_zero_iff]
    constructor
    · exact div_nonneg (by linarith) (by norm_num)
    · rw [div_lt_one (by norm_num : (0:ℚ) < 360)]
      linarith
  rw [wrapLon, pymod, hfl]
  push_cast
  ring

/-- C7: the longitude normalization of `align_data` (wrap then sort) is
idempotent — applying it twice yields exactly the coordinates and values
of applying it once — and it is a no-op on a dataset whose longitudes
already lie in `[-180, 180)` in ascending order. -/
theorem longitude_shift_idempotent :
    (∀ d : List (ℚ × ℚ),
        longitude_shift (longitude_shift d) = longitude_shift d) ∧
      ∀ d : List (ℚ × ℚ), (∀ p ∈ d, -180 ≤ p.1 ∧ p.1 < 180) →
        List.Sorted lonLE d → longitude_shift d = d := by
  have key : ∀ d : List (ℚ × ℚ), (∀ p ∈ d, -180 ≤ p.1 ∧ p.1 < 180) →
      List.Sorted lonLE d → longitude_shift d = d := by
    intro d hin hs
    have hmap : (d.map fun p => (wrapLon p.1, p.2)) = d.map id := by
      apply List.map_congr_left
      intro p hp
      rw [wrapLon_fixed p.1 (hin p hp).1 (hin p hp).2, id_eq]
    rw [longitude_shift, hmap, List.map_id]
    exact hs.insertionSort_eq
  refine ⟨fun d => ?_, key⟩
  apply key
  · intro p hp
    rw [longitude_shift, List.mem_insertionSort, List.mem_map] at hp
    obtain ⟨q, _, rfl⟩ := hp
    exact wrapLon_bounds q.1
  · exact List.sorted_insertionSort lonLE _

/-- Witness for C7: idempotence on a dataset with a 0-360 longitude, and
the no-op on an already-normalized sorted dataset. -/
theorem longitude_shift_idempotent_witness :
    ((∀ p ∈ ([(-10, 1), (20, 2)] : List (ℚ × ℚ)),
        -180 ≤ p.1 ∧ p.1 < 180) ∧
      List.Sorted lonLE ([(-10, 1), (20, 2)] : List (ℚ × ℚ))) ∧
      longitude_shift (longitude_shift [((200 : ℚ), (5 : ℚ)), (10, 6)]) =
          longitude_shift [((200 : ℚ), (5 : ℚ)), (10, 6)] ∧
        longitude_shift ([(-10, 1), (20, 2)] : List (ℚ × ℚ)) =
          [(-10, 1), (20, 2)] :=
  ⟨⟨by decide, by decide⟩,
    longitude_shift_idempotent.1 [((200 : ℚ), (5 : ℚ)), (10, 6)],
    longitude_shift_idempotent.2 [(-10, 1), (20, 2)] (by decide) (by decide)⟩

/-! ## Coordinate-name normalization (`homogenize_lat_lon`,
src/utils.py:98-127) -/

/-- The latitude synonym set of src/utils.py:114. -/
def lat_names : List (List Char) :=
  ["lat".toList, "Lat".toList, "LAT".toList, "nav_lat".toList,
    "lat_bnds".toList]

/-- The longitude synonym set of src/utils.py:115. -/
def lon_names : List (List Char) :=
  ["lon".toList, "Lon".toList, "LON".toList, "nav_lon".toList,
    "lon_bnds".toList]

/-- The time synonym set of src/utils.py:116. -/
def time_names : List (List Char) :=
  ["time".toList, "Time".toList, "time_bnds".toList]

/-- The mapping the rename dict of src/utils.py:118-125 applies to one
coordinate name: latitude synonyms first, then longitude, then time;
any other name is left unchanged. -/
def renameCoord (n : List Char) : List Char :=
  if n ∈ lat_names then "latitude".toList
  else if n ∈ lon_names then "longitude".toList
  else if n ∈ time_names then "valid_time".toList
  else n

/-- `homogenize_lat_lon`: every coordinate (name, values) renamed by the
synonym mapping, values untouched.  `none` models the error `xr.rename`
raises when two renamed coordinates collide (e.g. a dataset holding both
`lat` and `nav_lat`). -/
def homogenize_lat_lon (coords : List (List Char × List ℚ)) :
    Option (List (List Char × List ℚ)) :=
  let renamed := coords.map fun c => (renameCoord c.1, c.2)
  if (renamed.map Prod.fst).Nodup then some renamed else none

lemma lon_not_lat {n : List Char} (h : n ∈ lon_names) : n ∉ lat_names := by
  fin_cases h <;> decide

lemma time_not_lat {n : List Char} (h : n ∈ time_names) :
    n ∉ lat_names := by
  fin_cases h <;> decide

lemma time_not_lon {n : List Char} (h : n ∈ time_names) :
    n ∉ lon_names := by
  fin_cases h <;> decide

/-- C9: on any dataset whose renamed coordinate names do not collide,
`homogenize_lat_lon` succeeds silently and renames exactly the
coordinates in the synonym sets: position by position, values are
untouched, a latitude/longitude/time synonym becomes the canonical name,
and a name in no synonym set passes through unchanged. -/
theorem homogenize_renames_exactly (coords : List (List Char × List ℚ))
    (hnd : ((coords.map fun c => (renameCoord c.1, c.2)).map
      Prod.fst).Nodup) :
    ∃ out, homogenize_lat_lon coords = some out ∧
      out.length = coords.length ∧
      ∀ i, i < coords.length →
        (out.getD i ([], [])).2 = (coords.getD i ([], [])).2 ∧
        ((coords.getD i ([], [])).1 ∈ lat_names →
          (out.getD i ([], [])).1 = "latitude".toList) ∧
        ((coords.getD i ([], [])).1 ∈ lon_names →
          (out.getD i ([], [])).1 = "longitude".toList) ∧
        ((coords.getD i ([], [])).1 ∈ time_names →
          (out.getD i ([], [])).1 = "valid_time".toList) ∧
        ((coords.getD i ([], [])).1 ∉ lat_names →
          (coords.getD i ([], [])).1 ∉ lon_names →
          (coords.getD i ([], [])).1 ∉ time_names →
          out.getD i ([], []) = coords.getD i ([], [])) := by
  refine ⟨coords.map fun c => (renameCoord c.1, c.2), ?_, by simp, ?_⟩
  · rw [homogenize_lat_lon]
    exact if_pos hnd
  · intro i hi
    have hlen : i < (coords.map fun c => (renameCoord c.1, c.2)).length := by
      simpa using hi
    rw [List.getD_eq_getElem _ _ hlen, List.getD_eq_getElem _ _ hi,
      List.getElem_map]
    refine ⟨rfl, ?_, ?_, ?_, ?_⟩
    · intro h
      show renameCoord _ = _
      rw [renameCoord, if_pos h]
    · intro h
      show renameCoord _ = _
      rw [renameCoord, if_neg (lon_not_lat h), if_pos h]
    · intro h
      show renameCoord _ = _
      rw [renameCoord, if_neg (time_not_lat h), if_neg (time_not_lon h),
        if_pos h]
    · intro h1 h2 h3
      show (renameCoord _, _) = _
      rw [renameCoord, if_neg h1, if_neg h2, if_neg h3]

/-- Witness for C9 at a dataset with one latitude synonym and one
unrecognized coordinate name. -/
theorem homogenize_renames_exactly_witness :
    ((([("lat".toList, [(1 : ℚ)]), ("x".toList, [2])].map
        fun c => (renameCoord c.1, c.2)).map Prod.fst).Nodup) ∧
      ∃ out, homogenize_lat_lon
          [("lat".toList, [(1 : ℚ)]), ("x".toList, [2])] = some out ∧
        out.length =
          [("lat".toList, [(1 : ℚ)]), ("x".toList, [2])].length ∧
        ∀ i, i < [("lat".toList, [(1 : ℚ)]), ("x".toList, [2])].length →
          (out.getD i ([], [])).2 =
            ([("lat".toList, [(1 : ℚ)]),
              ("x".toList, [2])].getD i ([], [])).2 ∧
          ((([("lat".toList, [(1 : ℚ)]),
              ("x".toList, [2])].getD i ([], [])).1 ∈ lat_names →
            (out.getD i ([], [])).1 = "latitude".toList)) ∧
          ((([("lat".toList, [(1 : ℚ)]),
              ("x".toList, [2])].getD i ([], [])).1 ∈ lon_names →
            (out.getD i ([], [])).1 = "longitude".toList)) ∧
          ((([("lat".toList, [(1 : ℚ)]),
              ("x".toList, [2])].getD i ([], [])).1 ∈ time_names →
            (out.getD i ([], [])).1 = "valid_time".toList)) ∧
          ((([("lat".toList, [(1 : ℚ)]),
              ("x".toList, [2])].getD i ([], [])).1 ∉ lat_names →
            ([("lat".toList, [(1 : ℚ)]),
              ("x".toList, [2])].getD i ([], [])).1 ∉ lon_names →
            ([("lat".toList, [(1 : ℚ)]),
              ("x".toList, [2])].getD i ([], [])).1 ∉ time_names →
            out.getD i ([], []) =
              [("lat".toList, [(1 : ℚ)]),
                ("x".toList, [2])].getD i ([], []))) :=
  ⟨by decide, homogenize_renames_exactly _ (by decide)⟩

/-! ## Year-range gating of `temperature_index` (src/utils.py:213-273)

`temperature_index` recovers the covered year range from the date block
of the file name (`re.search` of: underscore, eight digits, hyphen, eight
digits; the year is the numeric value of the first four digits of each
block) and runs its per-year body only for requested years inside that
range.  The data loading and grid interpolation of the body are
abstracted into a `yearData` argument supplying the co-registered
flattened arrays for a year. -/

/-- The models-data accumulator: a pandas frame as an ordered list of
(column name, column values); its first column is `IMAGE_region` (the
index level demoted to a column by the first outer merge). -/
abbrev Frame := List (List Char × List (Option ℚ))

/-- One anchored attempt of the date pattern at the start of `l`. -/
def matchDates (l : List Char) : Option (List Char × List Char) :=
  match l with
  | '_' :: rest =>
    match rest.drop 8 with
    | '-' :: rest2 =>
      if (rest.take 8).length = 8 ∧ (∀ c ∈ rest.take 8, c.isDigit) ∧
          (rest2.take 8).length = 8 ∧ (∀ c ∈ rest2.take 8, c.isDigit) then
        some (rest.take 8, rest2.take 8)
      else none
    | _ => none
  | _ => none

/-- `re.search` of the date pattern: leftmost match. -/
def extractDates : List Char → Option (List Char × List Char)
  | [] => none
  | c :: cs =>
    match matchDates (c :: cs) with
    | some r => some r
    | none => extractDates cs

/-- Decimal value of a digit string (`int` on the matched text). -/
def digitsToNat (l : List Char) : ℕ :=
  l.foldl (fun acc c => 10 * acc + (c.toNat - '0'.toNat)) 0

/-- `int(match.group(k)[:4])`: the year of an eight-digit date block. -/
def yearOf (d : List Char) : ℕ :=
  digitsToNat (d.take 4)

/-- The decimal digits of the year as rendered by the f-string. -/
def yearChars (y : ℕ) : List Char :=
  Nat.toDigits 10 y

/-- The region values looked up for one accumulator key during the outer
merge (`NaN` for a missing key, as an unmatched outer-join cell). -/
def lookupRegion (tbl : List (ℚ × Option ℚ)) (k : Option ℚ) : Option ℚ :=
  match k with
  | none => none
  | some q =>
    match tbl.find? fun r => decide (r.1 = q) with
    | some r => r.2
    | none => none

/-- The loop body of `temperature_index` for one in-range year
(src/utils.py:254-271): count exceedances per cell, aggregate per region
(`get_region_values`), label the column `year_modelname`, and outer-merge
it into the accumulator.  The caller seeds the accumulator with every
region id 1..27, so the merge appends the new column aligned on the
accumulator's `IMAGE_region` column.  `none` models the crash when the
file name lacks the `day_..._r` pattern. -/
def processYear
    (yearData : ℕ → List (Option ℚ) × List (Option ℚ) ×
      List (List (Option ℚ)) × List (Option ℚ))
    (fname : List Char) (y : ℕ) (fd : Frame) : Option Frame :=
  match model_name fname with
  | none => none
  | some mn =>
    let dat := yearData y
    let counts := List.zipWith
      (fun ds t => some ((excedance_count ds t : ℕ) : ℚ)) dat.2.2.1 dat.2.2.2
    let tbl := get_region_values dat.1 counts dat.2.1
    let keyCol := (fd.head?.map Prod.snd).getD []
    some (fd ++ [(columnLabel (yearChars y) mn,
      keyCol.map (lookupRegion tbl))])

/-- `temperature_index` (src/utils.py:213-273) with file I/O and
interpolation abstracted: recover the covered year range from the file
name, then fold over the requested years, running the body only when
`start_year ≤ year ≤ end_year` (`year in np.arange(start, end + 1)`).
`none` models the crash on a file name without a date block. -/
def temperature_index (years : List ℕ) (fname : List Char)
    (yearData : ℕ → List (Option ℚ) × List (Option ℚ) ×
      List (List (Option ℚ)) × List (Option ℚ))
    (fd : Frame) : Option Frame :=
  (extractDates fname).bind fun dd =>
    years.foldl
      (fun acc y =>
        if yearOf dd.1 ≤ y ∧ y ≤ yearOf dd.2 then
          acc.bind (processYear yearData fname y)
        else acc)
      (some fd)

/-- C8: when a model file's embedded date range covers none of the
requested years, `temperature_index` raises no error and returns the
accumulated region table unchanged — the per-year body never runs, no row
or column is added or modified; a requested year is processed only inside
the covered range (outside it the fold's guard skips). -/
theorem out_of_range_years_skipped (years : List ℕ) (fname : List Char)
    (yearData : ℕ → List (Option ℚ) × List (Option ℚ) ×
      List (List (Option ℚ)) × List (Option ℚ))
    (fd : Frame) (d1 d2 : List Char)
    (hex : extractDates fname = some (d1, d2))
    (hout : ∀ y ∈ years, y < yearOf d1 ∨ yearOf d2 < y) :
    temperature_index years fname yearData fd = some fd := by
  show (extractDates fname).bind _ = some fd
  rw [hex]
  show years.foldl
      (fun acc y =>
        if yearOf d1 ≤ y ∧ y ≤ yearOf d2 then
          acc.bind (processYear yearData fname y)
        else acc)
      (some fd) = some fd
  induction years with
  | nil => rfl
  | cons y ys ih =>
    rw [List.foldl_cons, if_neg (by
      intro hc
      rcases hout y (by simp) with h' | h' <;> omega)]
    exact ih fun z hz => hout z (List.mem_cons_of_mem _ hz)

/-- Witness for C8: a file covering 1950-2014 with requested year 2025. -/
theorem out_of_range_years_skipped_witness :
    (extractDates
        "tasmax_day_M_ssp126_r1i1p1f1_gn_19500101-20141231.nc".toList =
      some ("19500101".toList, "20141231".toList)) ∧
      (∀ y ∈ [2025], y < yearOf "19500101".toList ∨
        yearOf "20141231".toList < y) ∧
      temperature_index [2025]
          "tasmax_day_M_ssp126_r1i1p1f1_gn_19500101-20141231.nc".toList
          (fun _ => ([], [], [], []))
          [("IMAGE_region".toList, [some 1])] =
        some [("IMAGE_region".toList, [some 1])] :=
  ⟨by decide, by decide,
    out_of_range_years_skipped [2025]
      "tasmax_day_M_ssp126_r1i1p1f1_gn_19500101-20141231.nc".toList
      (fun _ => ([], [], [], []))
      [("IMAGE_region".toList, [some 1])]
      "19500101".toList "20141231".toList (by decide) (by decide)⟩

/-! ## Multi-model summary (`temperature_index_all_models`,
src/utils.py:277-318)

After the per-file loop, `models_data` is a frame whose first column is
`IMAGE_region` (the seeded 1..27 index demoted to a column by the outer
merges) followed by one `year_model_scenario` column per processed
(file, year).  The summary step extracts (year, model, scenario) from
each column name, groups columns by the string `year_scenario` (a failed
extraction yields NaN fields, rendered `nan`, so the `IMAGE_region`
column lands in group `nan_nan`), builds across-model mean/std columns
per group, recovers the region index through the sentinel column
`nan_nan_model-mean` with `set_index` + `astype(int)`, and inner-joins
the region-names table (left order preserved). -/

def mmSuffix : List Char := "_model-mean".toList

def msSuffix : List Char := "_model-std".toList

/-- The sentinel column name of src/utils.py:309. -/
def sentinel : List Char := "nan_nan_model-mean".toList

/-- The group key of one column: `year_scenario` from the extract
pattern, or `nan_nan` when the pattern does not match (pandas renders the
NaN year and scenario as the string `nan`). -/
def colGroupKey (nm : List Char) : List Char :=
  match parseColumn nm with
  | some r => r.1 ++ '_' :: r.2.2
  | none => "nan_nan".toList

/-- `Series.unique`, keeping first occurrences, with an accumulator of
already-seen keys. -/
def uniqFirstAux (seen : List (List Char)) :
    List (List Char) → List (List Char)
  | [] => []
  | x :: xs =>
    if x ∈ seen then uniqFirstAux seen xs
    else x :: uniqFirstAux (x :: seen) xs

/-- `group_keys.unique()`: the distinct group keys in first-occurrence
order. -/
def uniqFirst (l : List (List Char)) : List (List Char) :=
  uniqFirstAux [] l

/-- pandas row-wise `mean(axis=1)` with its default skipna: NaN when the
row has no value. -/
def fmean (xs : List ℚ) : Option ℚ :=
  if xs.length = 0 then none else some (xs.sum / (xs.length : ℚ))

/-- pandas row-wise `std(axis=1)` (ddof = 1): NaN when fewer than two
values are present.  The source's value is the square root of this
sample variance; the root is irrational in general and no claim touches
the std values (only the column layout and NaN-ness, which agree), so the
embedding records the variance. -/
def fvar (xs : List ℚ) : Option ℚ :=
  if xs.length ≤ 1 then none
  else some
    ((xs.map fun x => (x - xs.sum / (xs.length : ℚ)) ^ 2).sum /
      ((xs.length : ℚ) - 1))

/-- One aggregated column over a group's member columns: row by row,
collect the non-NaN member values and aggregate them. -/
def rowAgg (vss : List (List (Option ℚ))) (nRows : ℕ)
    (f : List ℚ → Option ℚ) : List (Option ℚ) :=
  (List.range nRows).map fun r =>
    f ((vss.map fun vs => vs.getD r none).filterMap id)

/-- `astype(int)`: truncation toward zero of a (finite) float. -/
def ratTrunc (q : ℚ) : ℤ :=
  q.num / (q.den : ℤ)

/-- `astype(int)` over the recovered index: fails (`none`) if any entry
is NaN. -/
def allSome : List (Option ℚ) → Option (List ℚ)
  | [] => some []
  | none :: _ => none
  | some q :: t => (allSome t).map (q :: ·)

/-- The group keys of the accumulated columns, in first-occurrence
order (`group_keys.unique()`). -/
def groupsOf (md : Frame) : List (List Char) :=
  uniqFirst (md.map fun c => colGroupKey c.1)

/-- The member columns of one group (`models_data[cols_in_group]`). -/
def memberVals (md : Frame) (g : List Char) : List (List (Option ℚ)) :=
  (md.filter fun c => decide (colGroupKey c.1 = g)).map Prod.snd

/-- `pd.concat([df_mean, df_std], axis=1)`: per group one
`_model-mean` column and one `_model-std` column, mean block first. -/
def summaryCols (md : Frame) : Frame :=
  let nRows := (md.head?.map fun c => c.2.length).getD 0
  ((groupsOf md).map fun g =>
    (g ++ mmSuffix, rowAgg (memberVals md g) nRows fmean)) ++
  (groupsOf md).map fun g =>
    (g ++ msSuffix, rowAgg (memberVals md g) nRows fvar)

/-- The final table: region index, region names, and the data columns. -/
structure SummaryOut where
  rIndex : List ℤ
  regionNames : List (List Char)
  dataCols : Frame

/-- The column list of the final merged table: the joined `Region` name
column followed by the summary data columns. -/
def columnsOf (s : SummaryOut) : List (List Char) :=
  "Region".toList :: s.dataCols.map Prod.fst

/-- The summary step of `temperature_index_all_models`
(src/utils.py:291-317): build the grouped mean/std columns, locate the
sentinel column `nan_nan_model-mean` (`none` models the KeyError when it
is absent), turn it into the integer index (`none` models `astype(int)`
failing on NaN), drop it from the columns, and inner-join the
region-names table on the index preserving the name table's order. -/
def summarize (md : Frame) (names : List (ℤ × List Char)) :
    Option SummaryOut :=
  ((summaryCols md).find? fun c => decide (c.1 = sentinel)).bind fun idxCol =>
    (allSome idxCol.2).map fun qs =>
      let idx : List ℤ := qs.map ratTrunc
      let keep := names.filter fun p => decide (p.1 ∈ idx)
      { rIndex := keep.map Prod.fst
        regionNames := keep.map Prod.snd
        dataCols :=
          ((summaryCols md).filter fun c => decide (¬c.1 = sentinel)).map
            fun c =>
              (c.1, keep.map fun p => c.2.getD (idx.indexOf p.1) none) }

lemma parseColumn_label (yd mm sc : List Char) (hydl : yd.length = 4)
    (hydd : ∀ c ∈ yd, c.isDigit) (hmm : mm ≠ []) (hmu : '_' ∉ mm)
    (hsc : sc ≠ []) :
    parseColumn (yd ++ '_' :: (mm ++ '_' :: sc)) = some (yd, mm, sc) := by
  obtain ⟨a, b, c, d, rfl⟩ := exists_four_of_length hydl
  cases mm with
  | nil => exact absurd rfl hmm
  | cons x m' =>
    show parseColumn (a :: b :: c :: d :: '_' :: x :: (m' ++ '_' :: sc)) = _
    rw [parseColumn_cons, matchYMS_eq,
      if_pos ⟨hydd a (by simp), hydd b (by simp), hydd c (by simp),
        hydd d (by simp), rfl⟩,
      lazySplit_append m' sc (fun hc => hmu (List.mem_cons_of_mem _ hc)) hsc]
    rfl

lemma colGroupKey_label (yd mm sc : List Char) (hydl : yd.length = 4)
    (hydd : ∀ c ∈ yd, c.isDigit) (hmm : mm ≠ []) (hmu : '_' ∉ mm)
    (hsc : sc ≠ []) :
    colGroupKey (yd ++ '_' :: (mm ++ '_' :: sc)) = yd ++ '_' :: sc := by
  unfold colGroupKey
  rw [parseColumn_label yd mm sc hydl hydd hmm hmu hsc]

lemma label_ne_nan (yd sc : List Char) (hydl : yd.length = 4)
    (hydd : ∀ c ∈ yd, c.isDigit) :
    yd ++ '_' :: sc ≠ "nan_nan".toList := by
  obtain ⟨a, b, c, d, rfl⟩ := exists_four_of_length hydl
  intro heq
  have hyd : "nan_nan".toList = 'n' :: 'a' :: 'n' :: '_' :: "nan".toList :=
    rfl
  rw [hyd] at heq
  simp only [List.cons_append, List.nil_append, List.cons.injEq] at heq
  have hd := hydd d (by simp)
  rw [heq.2.2.2.1] at hd
  exact absurd hd (by decide)

lemma uniqFirstAux_cons (seen : List (List Char)) (x : List Char)
    (xs : List (List Char)) :
    uniqFirstAux seen (x :: xs) =
      if x ∈ seen then uniqFirstAux seen xs
      else x :: uniqFirstAux (x :: seen) xs := rfl

lemma uniqFirstAux_congr (s₁ s₂ : List (List Char))
    (l : List (List Char)) (h : ∀ x ∈ l, x ∈ s₁ ↔ x ∈ s₂) :
    uniqFirstAux s₁ l = uniqFirstAux s₂ l := by
  induction l generalizing s₁ s₂ with
  | nil => rfl
  | cons x xs ih =>
    rw [uniqFirstAux_cons, uniqFirstAux_cons]
    by_cases hx : x ∈ s₁
    · rw [if_pos hx, if_pos ((h x (by simp)).mp hx)]
      exact ih _ _ fun z hz => h z (List.mem_cons_of_mem _ hz)
    · rw [if_neg hx, if_neg fun hh => hx ((h x (by simp)).mpr hh)]
      congr 1
      refine ih _ _ fun z hz => ?_
      rw [List.mem_cons, List.mem_cons]
      exact or_congr Iff.rfl (h z (List.mem_cons_of_mem _ hz))

lemma mem_uniqFirstAux {x : List Char} :
    ∀ (seen : List (List Char)) (l : List (List Char)),
      x ∈ uniqFirstAux seen l → x ∈ l := by
  intro seen l
  induction l generalizing seen with
  | nil => intro h; exact absurd h (List.not_mem_nil _)
  | cons y ys ih =>
    intro h
    rw [uniqFirstAux_cons] at h
    by_cases hy : y ∈ seen
    · rw [if_pos hy] at h
      exact List.mem_cons_of_mem _ (ih _ h)
    · rw [if_neg hy] at h
      rcases List.mem_cons.mp h with rfl | h'
      · exact List.mem_cons_self _ _
      · exact List.mem_cons_of_mem _ (ih _ h')

lemma mem_uniqFirst {x : List Char} {l : List (List Char)}
    (h : x ∈ uniqFirst l) : x ∈ l :=
  mem_uniqFirstAux _ _ h

lemma fmean_singleton (q : ℚ) : fmean [q] = some q := by
  simp [fmean]

lemma ratTrunc_int (i : ℤ) : ratTrunc ((i : ℤ) : ℚ) = i := by
  simp [ratTrunc]

lemma allSome_map_some (l : List ℚ) : allSome (l.map some) = some l := by
  induction l with
  | nil => rfl
  | cons q t ih => rw [List.map_cons, allSome, ih]; rfl

lemma rowAgg_single_mean (l : List ℚ) :
    rowAgg [l.map some] (l.map some).length fmean = l.map some := by
  apply List.ext_getElem
  · simp [rowAgg]
  · intro r h1 h2
    simp only [rowAgg, List.length_map] at h1 h2 ⊢
    rw [List.getElem_map, List.getElem_range, List.getElem_map]
    have hr : r < l.length := by simpa using h2
    rw [List.map_cons, List.map_nil,
      List.getD_eq_getElem _ _ (by simpa using hr), List.getElem_map]
    simp [fmean_singleton]

lemma std_ne_sentinel (g : List Char) : g ++ msSuffix ≠ sentinel := by
  intro h
  have h1 : (g ++ msSuffix).getLast? = sentinel.getLast? := by rw [h]
  rw [List.getLast?_append, show msSuffix.getLast? = some 'd' from rfl,
    Option.or_some] at h1
  exact absurd h1 (by decide)

lemma sentinel_eq_append : sentinel = "nan_nan".toList ++ mmSuffix := by
  decide

/-- The shape of the summary output on a well-formed `models_data`: the
first column is `IMAGE_region` holding the integer region ids, and every
further column is labelled `year_model_scenario` (given as a triple).
The output keeps the region rows in name-table order and its columns are
`Region`, the per-(year, scenario) mean columns, the leftover
`nan_nan_model-std` column, and the per-(year, scenario) std columns. -/
lemma summarize_shape (ids : List ℤ)
    (trips : List ((List Char × List Char × List Char) × List (Option ℚ)))
    (names : List (ℤ × List Char))
    (htr : ∀ t ∈ trips, t.1.1.length = 4 ∧ (∀ ch ∈ t.1.1, ch.isDigit) ∧
      t.1.2.1 ≠ [] ∧ '_' ∉ t.1.2.1 ∧ t.1.2.2 ≠ []) :
    ∃ s, summarize
        (("IMAGE_region".toList, ids.map fun i => some ((i : ℤ) : ℚ)) ::
          trips.map fun t =>
            (t.1.1 ++ '_' :: (t.1.2.1 ++ '_' :: t.1.2.2), t.2)) names =
      some s ∧
      columnsOf s = "Region".toList ::
        ((uniqFirst (trips.map fun t => t.1.1 ++ '_' :: t.1.2.2)).map
            (· ++ mmSuffix) ++
          ("nan_nan".toList ++ msSuffix) ::
            (uniqFirst (trips.map fun t => t.1.1 ++ '_' :: t.1.2.2)).map
              (· ++ msSuffix)) ∧
      s.rIndex = (names.filter fun p => decide (p.1 ∈ ids)).map Prod.fst ∧
      s.regionNames =
        (names.filter fun p => decide (p.1 ∈ ids)).map Prod.snd := by
  set rvals : List (Option ℚ) := ids.map fun i => some ((i : ℤ) : ℚ)
    with hrv
  set md : Frame := ("IMAGE_region".toList, rvals) ::
    trips.map (fun t => (t.1.1 ++ '_' :: (t.1.2.1 ++ '_' :: t.1.2.2), t.2))
    with hmd
  set K : (List Char × List Char × List Char) × List (Option ℚ) → List Char
    := fun t => t.1.1 ++ '_' :: t.1.2.2 with hKdef
  have hknan : ∀ x ∈ trips.map K, x ≠ "nan_nan".toList := by
    intro x hx
    obtain ⟨t, ht, rfl⟩ := List.mem_map.mp hx
    obtain ⟨h1, h2, -, -, -⟩ := htr t ht
    exact label_ne_nan _ _ h1 h2
  have hkeymap : (md.map fun c => colGroupKey c.1) =
      "nan_nan".toList :: trips.map K := by
    rw [hmd, List.map_cons, List.map_map, List.cons.injEq]
    refine ⟨?_, ?_⟩
    · show colGroupKey "IMAGE_region".toList = "nan_nan".toList
      decide
    · apply List.map_congr_left
      intro t ht
      obtain ⟨h1, h2, h3, h4, h5⟩ := htr t ht
      exact colGroupKey_label _ _ _ h1 h2 h3 h4 h5
  have hgroups : groupsOf md =
      "nan_nan".toList :: uniqFirst (trips.map K) := by
    rw [groupsOf, hkeymap, uniqFirst, uniqFirstAux_cons,
      if_neg (List.not_mem_nil _)]
    congr 1
    exact uniqFirstAux_congr _ _ _ fun x hx =>
      ⟨fun h => absurd (List.mem_singleton.mp h) (hknan x hx),
        fun h => absurd h (List.not_mem_nil _)⟩
  have hmembers : memberVals md "nan_nan".toList = [rvals] := by
    rw [memberVals, hmd, List.filter_cons_of_pos
      (by show decide (colGroupKey "IMAGE_region".toList =
            "nan_nan".toList) = true
          decide),
      List.filter_map]
    have hnil : trips.filter ((fun c => decide
        (colGroupKey c.1 = "nan_nan".toList)) ∘
          fun t => (t.1.1 ++ '_' :: (t.1.2.1 ++ '_' :: t.1.2.2), t.2)) =
        [] := by
      rw [List.filter_eq_nil_iff]
      intro t ht
      obtain ⟨h1, h2, h3, h4, h5⟩ := htr t ht
      show ¬decide (colGroupKey (t.1.1 ++ '_' :: (t.1.2.1 ++ '_' ::
        t.1.2.2)) = "nan_nan".toList) = true
      rw [colGroupKey_label _ _ _ h1 h2 h3 h4 h5]
      simp only [decide_eq_true_eq]
      exact label_ne_nan _ _ h1 h2
    rw [hnil]
    rfl
  have hnrows : (md.head?.map fun c => c.2.length).getD 0 = rvals.length :=
    rfl
  have hsum : summaryCols md =
      (("nan_nan".toList ++ mmSuffix,
          rowAgg [rvals] rvals.length fmean) ::
        (uniqFirst (trips.map K)).map fun g =>
          (g ++ mmSuffix, rowAgg (memberVals md g) rvals.length fmean)) ++
      (("nan_nan".toList ++ msSuffix,
          rowAgg [rvals] rvals.length fvar) ::
        (uniqFirst (trips.map K)).map fun g =>
          (g ++ msSuffix, rowAgg (memberVals md g) rvals.length fvar)) := by
    rw [summaryCols, hnrows, hgroups, List.map_cons, List.map_cons,
      hmembers]
  have hfind : ((summaryCols md).find? fun c => decide (c.1 = sentinel)) =
      some ("nan_nan".toList ++ mmSuffix,
        rowAgg [rvals] rvals.length fmean) := by
    rw [hsum, List.cons_append]
    exact List.find?_cons_of_pos _
      (by show decide (("nan_nan".toList ++ mmSuffix : List Char) =
            sentinel) = true
          decide)
  have hrv2 : rvals = (ids.map fun i : ℤ => ((i : ℤ) : ℚ)).map some := by
    rw [hrv, List.map_map]
    rfl
  have hallsome : allSome (rowAgg [rvals] rvals.length fmean) =
      some (ids.map fun i => ((i : ℤ) : ℚ)) := by
    rw [hrv2, rowAgg_single_mean]
    exact allSome_map_some _
  have hidx : (ids.map fun i => ((i : ℤ) : ℚ)).map ratTrunc = ids := by
    rw [List.map_map]
    have : ids.map (ratTrunc ∘ fun i : ℤ => ((i : ℤ) : ℚ)) =
        ids.map id :=
      List.map_congr_left fun i _ => ratTrunc_int i
    rw [this, List.map_id]
  have hfiltered :
      ((summaryCols md).filter fun c => decide (¬c.1 = sentinel)) =
      ((uniqFirst (trips.map K)).map fun g =>
        (g ++ mmSuffix, rowAgg (memberVals md g) rvals.length fmean)) ++
      (("nan_nan".toList ++ msSuffix,
          rowAgg [rvals] rvals.length fvar) ::
        (uniqFirst (trips.map K)).map fun g =>
          (g ++ msSuffix, rowAgg (memberVals md g) rvals.length fvar)) := by
    rw [hsum, List.cons_append, List.filter_cons_of_neg
      (by show ¬decide (¬("nan_nan".toList ++ mmSuffix : List Char) =
            sentinel) = true
          decide),
      List.filter_append]
    congr 1
    · apply List.filter_eq_self.mpr
      intro c hc
      obtain ⟨g, hg, rfl⟩ := List.mem_map.mp hc
      have hgne : g ≠ "nan_nan".toList := hknan g (mem_uniqFirst hg)
      simp only [decide_eq_true_eq]
      intro heq
      rw [sentinel_eq_append] at heq
      exact hgne (List.append_cancel_right heq)
    · rw [List.filter_cons_of_pos
        (by show decide (¬("nan_nan".toList ++ msSuffix : List Char) =
              sentinel) = true
            decide)]
      congr 1
      apply List.filter_eq_self.mpr
      intro c hc
      obtain ⟨g, hg, rfl⟩ := List.mem_map.mp hc
      simp only [decide_eq_true_eq]
      exact std_ne_sentinel g
  have hS : summarize md names = some
      { rIndex := (names.filter fun p => decide (p.1 ∈ ids)).map Prod.fst
        regionNames :=
          (names.filter fun p => decide (p.1 ∈ ids)).map Prod.snd
        dataCols :=
          ((summaryCols md).filter fun c => decide (¬c.1 = sentinel)).map
            fun c => (c.1, (names.filter fun p =>
              decide (p.1 ∈ ids)).map fun p =>
                c.2.getD (ids.indexOf p.1) none) } := by
    rw [summarize, hfind]
    show (allSome (rowAgg [rvals] rvals.length fmean)).map _ = _
    rw [hallsome, Option.map_some']
    congr 1
    rw [hidx]
  refine ⟨_, hS, ?_, ?_, ?_⟩
  · rw [columnsOf]
    congr 1
    rw [List.map_map]
    have hfst : (((summaryCols md).filter fun c =>
        decide (¬c.1 = sentinel)).map
          ((fun c : List Char × List (Option ℚ) => Prod.fst c) ∘
            fun c => (c.1, (names.filter fun p =>
              decide (p.1 ∈ ids)).map fun p =>
                c.2.getD (ids.indexOf p.1) none))) =
        ((summaryCols md).filter fun c =>
          decide (¬c.1 = sentinel)).map Prod.fst :=
      List.map_congr_left fun c _ => rfl
    rw [hfst, hfiltered, List.map_append, List.map_map, List.map_cons,
      List.map_map]
    rfl
  · rfl
  · rfl

/-- C6 (counterexample to the claim as stated): a run with one model
column, for year 2025 and scenario ssp126, produces a final table whose
columns are not only the region names and the 2025_ssp126 mean/std pair:
the leftover `nan_nan_model-std` column — the std aggregate of the
sentinel group formed by the demoted `IMAGE_region` column — appears as
well. -/
theorem summary_has_extra_nan_std_column :
    ∃ s, summarize
        (("IMAGE_region".toList,
            ([1, 2] : List ℤ).map fun i => some ((i : ℤ) : ℚ)) ::
          [(("2025".toList, "MA".toList, "ssp126".toList),
            ([some 3, some 7] : List (Option ℚ)))].map fun t =>
              (t.1.1 ++ '_' :: (t.1.2.1 ++ '_' :: t.1.2.2), t.2))
        [(1, "Canada".toList), (2, "USA".toList)] = some s ∧
      columnsOf s = ["Region".toList, "2025_ssp126_model-mean".toList,
        "nan_nan_model-std".toList, "2025_ssp126_model-std".toList] ∧
      "nan_nan_model-std".toList ∈ columnsOf s ∧
      "nan_nan_model-std".toList ∉
        ["Region".toList, "2025_ssp126_model-mean".toList,
          "2025_ssp126_model-std".toList] := by
  obtain ⟨s, hs, hcols, -, -⟩ := summarize_shape [1, 2]
    [(("2025".toList, "MA".toList, "ssp126".toList), [some 3, some 7])]
    [(1, "Canada".toList), (2, "USA".toList)] (by decide)
  have hcols' : columnsOf s =
      ["Region".toList, "2025_ssp126_model-mean".toList,
        "nan_nan_model-std".toList, "2025_ssp126_model-std".toList] := by
    rw [hcols]
    decide
  exact ⟨s, hs, hcols', by rw [hcols']; decide, by decide⟩

/-- C6 (amended): for every run — modelled on a `models_data` whose first
column is the demoted `IMAGE_region` index holding the integer region ids
and whose remaining columns are labelled `year_model_scenario` — the final
table is indexed by integer region id joined with the human-readable
region names (in the name table's order), and its columns are exactly:
the `Region` name column, one `year_scenario_model-mean` column per
(year, scenario) present, the leftover `nan_nan_model-std` column (an
artifact of the sentinel-based index recovery), and one
`year_scenario_model-std` column per (year, scenario) present — nothing
else. -/
theorem ensemble_summary_columns (ids : List ℤ)
    (trips : List ((List Char × List Char × List Char) × List (Option ℚ)))
    (names : List (ℤ × List Char))
    (htr : ∀ t ∈ trips, t.1.1.length = 4 ∧ (∀ ch ∈ t.1.1, ch.isDigit) ∧
      t.1.2.1 ≠ [] ∧ '_' ∉ t.1.2.1 ∧ t.1.2.2 ≠ []) :
    ∃ s, summarize
        (("IMAGE_region".toList, ids.map fun i => some ((i : ℤ) : ℚ)) ::
          trips.map fun t =>
            (t.1.1 ++ '_' :: (t.1.2.1 ++ '_' :: t.1.2.2), t.2)) names =
      some s ∧
      columnsOf s = "Region".toList ::
        ((uniqFirst (trips.map fun t => t.1.1 ++ '_' :: t.1.2.2)).map
            (· ++ mmSuffix) ++
          ("nan_nan".toList ++ msSuffix) ::
            (uniqFirst (trips.map fun t => t.1.1 ++ '_' :: t.1.2.2)).map
              (· ++ msSuffix)) ∧
      s.rIndex = (names.filter fun p => decide (p.1 ∈ ids)).map Prod.fst ∧
      s.regionNames =
        (names.filter fun p => decide (p.1 ∈ ids)).map Prod.snd :=
  summarize_shape ids trips names htr

/-- Witness for the amended C6 at a two-region run with two model columns
sharing (2025, ssp126). -/
theorem ensemble_summary_columns_witness :
    (∀ t ∈ [(("2025".toList, "MA".toList, "ssp126".toList),
        ([some 3, some 7] : List (Option ℚ))),
        (("2025".toList, "MB".toList, "ssp126".toList), [some 4, none])],
      t.1.1.length = 4 ∧ (∀ ch ∈ t.1.1, ch.isDigit) ∧
        t.1.2.1 ≠ [] ∧ '_' ∉ t.1.2.1 ∧ t.1.2.2 ≠ []) ∧
      ∃ s, summarize
          (("IMAGE_region".toList,
              ([1, 2] : List ℤ).map fun i => some ((i : ℤ) : ℚ)) ::
            [(("2025".toList, "MA".toList, "ssp126".toList),
                ([some 3, some 7] : List (Option ℚ))),
              (("2025".toList, "MB".toList, "ssp126".toList),
                [some 4, none])].map fun t =>
              (t.1.1 ++ '_' :: (t.1.2.1 ++ '_' :: t.1.2.2), t.2))
          [(1, "Canada".toList), (2, "USA".toList)] = some s ∧
        columnsOf s = "Region".toList ::
          ((uniqFirst
              ([(("2025".toList, "MA".toList, "ssp126".toList),
                  ([some 3, some 7] : List (Option ℚ))),
                (("2025".toList, "MB".toList, "ssp126".toList),
                  [some 4, none])].map fun t =>
                    t.1.1 ++ '_' :: t.1.2.2)).map (· ++ mmSuffix) ++
            ("nan_nan".toList ++ msSuffix) ::
              (uniqFirst
                ([(("2025".toList, "MA".toList, "ssp126".toList),
                    ([some 3, some 7] : List (Option ℚ))),
                  (("2025".toList, "MB".toList, "ssp126".toList),
                    [some 4, none])].map fun t =>
                      t.1.1 ++ '_' :: t.1.2.2)).map (· ++ msSuffix)) ∧
        s.rIndex = ([(1, "Canada".toList), (2, "USA".toList)].filter
          fun p => decide (p.1 ∈ ([1, 2] : List ℤ))).map Prod.fst ∧
        s.regionNames = ([(1, "Canada".toList),
          (2, "USA".toList)].filter
            fun p => decide (p.1 ∈ ([1, 2] : List ℤ))).map Prod.snd :=
  ⟨by decide,
    ensemble_summary_columns [1, 2]
      [(("2025".toList, "MA".toList, "ssp126".toList), [some 3, some 7]),
        (("2025".toList, "MB".toList, "ssp126".toList), [some 4, none])]
      [(1, "Canada".toList), (2, "USA".toList)] (by decide)⟩

end GHEJ
